import Mathlib

/-!
Verification of the sequential-chain composition layer and the agent
execution loop of this repository.

The sequential composers are embedded from `langchain/chains/sequential.py`:
Python dictionaries become association lists (`Dict`), Python sets become
`Finset String`, a raised `ValueError` (wrapped into a pydantic
`ValidationError`) becomes the `Except.error` branch, and a sub-chain is the
record of interface data the composer reads from it (`input_keys`,
`output_keys`, and its call behaviour as an opaque function).
-/

namespace LangchainVerif

/-- Python `Dict[str, str]` as an association list; the first binding of a
key is its value. -/
def Dict : Type := List (String × String)

instance : DecidableEq Dict := by
  unfold Dict
  infer_instance

/-- Lookup of a key, `d[k]` when present. -/
def Dict.get? : Dict → String → Option String
  | [], _ => none
  | kv :: rest, k => if kv.1 = k then some kv.2 else Dict.get? rest k

/-- Python `d.update(other)`: bindings of `other` override those of `d`,
fresh keys are appended. -/
def Dict.update (d other : Dict) : Dict :=
  (d.map fun kv =>
    match Dict.get? other kv.1 with
    | some v => (kv.1, v)
    | none => kv) ++
  other.filter fun kv => (Dict.get? d kv.1).isNone

/-- Python dict comprehension over a key list, dropping absent keys:
models the defined behaviour of a comprehension indexing `d`. -/
def Dict.restrict (d : Dict) (keys : List String) : Dict :=
  keys.filterMap fun k => (Dict.get? d k).map fun v => (k, v)

/-- The interface a `SequentialChain` reads from each sub-chain: its declared
input and output keys, and its invocation
`chain(known_values, return_only_outputs := True)` as an opaque function from
the environment it is handed to the dictionary of outputs it returns. -/
structure SubChain where
  input_keys : List String
  output_keys : List String
  call : Dict → Dict

/-- Union of all sub-chain output key sets. -/
def outputUnion : List SubChain → Finset String
  | [] => ∅
  | c :: cs => c.output_keys.toFinset ∪ outputUnion cs

/-- The loop of `SequentialChain.validate_chains`: starting from the known
variable set, each chain must have all its input keys known and none of its
output keys known; its output keys are then added. -/
def validateLoop : List SubChain → Finset String → Except String (Finset String)
  | [], known => Except.ok known
  | c :: cs, known =>
    if c.input_keys.toFinset \ known ≠ ∅ then
      Except.error "Missing required input keys"
    else if known ∩ c.output_keys.toFinset ≠ ∅ then
      Except.error "Chain returned keys that already exist"
    else
      validateLoop cs (known ∪ c.output_keys.toFinset)

/-- The spec-side well-formedness condition on the variable flow, written
with plain quantifiers: every input key of each sub-chain is already known,
no output key of a sub-chain is already known, accumulating in order. -/
def FlowValid : List SubChain → Finset String → Prop
  | [], _ => True
  | c :: cs, known =>
    (∀ k ∈ c.input_keys, k ∈ known) ∧
    (∀ k ∈ c.output_keys, k ∉ known) ∧
    FlowValid cs (known ∪ c.output_keys.toFinset)

/-- `SequentialChain.validate_chains` (root validator, `pre := True`):
runs the loop, then resolves `output_variables`.  When they are not given,
they default to `known - input_variables` under `return_all` and to the last
chain's output keys otherwise (`chains[-1]` raises `IndexError` on an empty
list); when given, they must all be known.  The resolved output-variable set
is returned. -/
def validate_chains (chains : List SubChain) (input_variables : List String)
    (output_variables : Option (List String)) (return_all : Bool) :
    Except String (Finset String) :=
  match validateLoop chains input_variables.toFinset with
  | Except.error e => Except.error e
  | Except.ok known =>
    match output_variables with
    | none =>
      if return_all then
        Except.ok (known \ input_variables.toFinset)
      else
        match chains.getLast? with
        | some c => Except.ok c.output_keys.toFinset
        | none => Except.error "IndexError"
    | some ov =>
      if ov.toFinset \ known ≠ ∅ then
        Except.error "Expected output variables that were not found"
      else
        Except.ok ov.toFinset

/-- The environment accumulated by the loop of `SequentialChain._call`:
starting from a copy of the inputs, each chain is handed the full current
environment and its returned outputs are merged in before the next step. -/
def envAfter (chains : List SubChain) (inputs : Dict) : Dict :=
  chains.foldl (fun known c => known.update (c.call known)) inputs

/-- `SequentialChain._call`: run the loop, then return the comprehension
over `output_variables` of the final environment. -/
def SequentialChain.call (chains : List SubChain) (output_variables : List String)
    (inputs : Dict) : Dict :=
  (envAfter chains inputs).restrict output_variables

/-- The interface `SimpleSequentialChain` reads from each sub-chain: its key
lists for the construction-time arity check, and `chain.run`, the scalar
string-to-string invocation used at call time. -/
structure SimpleChain where
  input_keys : List String
  output_keys : List String
  run : String → String

/-- `SimpleSequentialChain.validate_chains`: every sub-chain must have
exactly one input key and exactly one output key. -/
def SimpleSequentialChain.validate_chains : List SimpleChain → Except String Unit
  | [] => Except.ok ()
  | c :: cs =>
    if c.input_keys.length ≠ 1 then
      Except.error "Chains used in SimplePipeline should all have one input"
    else if c.output_keys.length ≠ 1 then
      Except.error "Chains used in SimplePipeline should all have one output"
    else
      SimpleSequentialChain.validate_chains cs

/-- The loop of `SimpleSequentialChain._call`: the scalar value is threaded
through each sub-chain in order, trimmed after each step when
`strip_outputs` is set (Python `str.strip()` becomes `String.trim`). -/
def SimpleSequentialChain.callValue (chains : List SimpleChain)
    (strip_outputs : Bool) (x : String) : String :=
  chains.foldl (fun v c => let v2 := c.run v; if strip_outputs then v2.trim else v2) x

/-- `SimpleSequentialChain._call`: read `inputs[input_key]` (`none` models
the `KeyError` on an absent key), thread it through the loop, and return it
under `output_key`. -/
def SimpleSequentialChain.call (chains : List SimpleChain) (strip_outputs : Bool)
    (input_key output_key : String) (inputs : Dict) : Option Dict :=
  (inputs.get? input_key).map fun x =>
    [(output_key, SimpleSequentialChain.callValue chains strip_outputs x)]

/-- `chain.run(x)` on a `SimpleSequentialChain` with the default keys:
call with the single input bound and extract the single output. -/
def SimpleSequentialChain.run (chains : List SimpleChain) (strip_outputs : Bool)
    (x : String) : Option String :=
  (SimpleSequentialChain.call chains strip_outputs "input" "output"
    [("input", x)]).bind fun d => d.get? "output"

/-- The interface `SequentailChainWithPreviousContext._call` reads from each
sub-chain: its mutable prompt template (`chain.prompt.template`), the prompt's
declared variables (`chain.prompt.input_variables`), its single output key
(`chain.output_key`), and its invocation behaviour `respond`, which yields the
value of the output key given the current template text and the restricted
input values (an LLM-chain-shaped sub-chain with one output). -/
structure CtxChain where
  template : String
  input_variables : List String
  output_key : String
  respond : String → Dict → String

/-- One step of the context-accumulating loop as recorded for analysis: the
template in effect when the sub-chain was invoked, the base template the
sub-chain held before the step, the values handed to it, the rendered
prompt, and its response. -/
structure CtxStep where
  effectiveTemplate : String
  base : String
  used : Dict
  prompt : String
  response : String

/-- Result of `SequentailChainWithPreviousContext._call`: the sub-chains with
their templates as rewritten in place, the composer's `context` field after
the call, the final variable environment, and the per-step trace. -/
structure CtxRunResult where
  chains : List CtxChain
  context : String
  env : Dict
  trace : List CtxStep

/-- The loop of `SequentailChainWithPreviousContext._call`, embedded from
the source: each iteration overwrites `chain.prompt.template` with
`self.context + chain.prompt.template`, restricts the environment to the
prompt's input variables, invokes the chain, renders the prompt
(`chain.prompt.format`, the opaque `fmt` collaborator), overwrites
`self.context` with `prompt + response`, and merges the output. -/
def ctxRun (fmt : String → Dict → String) :
    List CtxChain → Dict → String → CtxRunResult
  | [], known, ctx => ⟨[], ctx, known, []⟩
  | c :: cs, known, ctx =>
    let t := ctx ++ c.template
    let used := Dict.restrict known c.input_variables
    let response := c.respond t used
    let prompt := fmt t used
    let rest := ctxRun fmt cs (known.update [(c.output_key, response)])
      (prompt ++ response)
    ⟨{ c with template := t } :: rest.chains, rest.context, rest.env,
      ⟨t, c.template, used, prompt, response⟩ :: rest.trace⟩

/-- `SequentailChainWithPreviousContext._call` (note the source's spelling):
run the loop from the composer's state, then return the comprehension over
`output_variables` together with the mutated state. -/
def SequentailChainWithPreviousContext.call (fmt : String → Dict → String)
    (chains : List CtxChain) (output_variables : List String) (inputs : Dict)
    (context : String) : Dict × CtxRunResult :=
  let r := ctxRun fmt chains inputs context
  (r.env.restrict output_variables, r)

/-- Accumulator-style description of the context-accumulating variant,
following the words of the spec: each step receives the running context,
which is the concatenation over all prior steps of that step's rendered base
prompt and its response, prepended to its base template; no template is
mutated.  Returns the final running context, the final environment, and the
per-step trace. -/
def specRun (fmt : String → Dict → String) :
    List CtxChain → Dict → String → String × Dict × List CtxStep
  | [], known, acc => (acc, known, [])
  | c :: cs, known, acc =>
    let eff := acc ++ c.template
    let used := Dict.restrict known c.input_variables
    let response := c.respond eff used
    let basePrompt := fmt c.template used
    let rest := specRun fmt cs (known.update [(c.output_key, response)])
      (acc ++ (basePrompt ++ response))
    (rest.1, rest.2.1, ⟨eff, c.template, used, acc ++ basePrompt, response⟩ :: rest.2.2)

/-- Growth relation between consecutive steps of the context-accumulating
loop: the later step's effective template is the earlier step's full rendered
prompt and response, followed by the later step's own base template. -/
def ctxGrowth (st1 st2 : CtxStep) : Prop :=
  st2.effectiveTemplate = st1.prompt ++ st1.response ++ st2.base

/-- The last step's rendered prompt followed by its response, when the trace
is not empty. -/
def lastPromptResponse (steps : List CtxStep) : Option String :=
  steps.getLast?.map fun st => st.prompt ++ st.response

/-- The effective template of the first step of a run, when there is one. -/
def headEffectiveTemplate (r : CtxRunResult) : Option String :=
  r.trace.head?.map CtxStep.effectiveTemplate

/-- A rendering collaborator that returns the template verbatim; it renders
any literal prefix verbatim. -/
def fmtKeep : String → Dict → String := fun t _ => t

/-- A concrete sub-chain for evaluating the context-accumulating loop. -/
def demoCtxChain : CtxChain := ⟨"T", ["x"], "out", fun _ _ => "R"⟩

/-- A second concrete sub-chain for evaluating the context-accumulating
loop. -/
def demoCtxChain2 : CtxChain := ⟨"U", ["out"], "out2", fun _ _ => "S"⟩

/-- A concrete input environment for the context-accumulating loop. -/
def demoDict : Dict := [("x", "v")]

/-- Modelled from the spec: the decision extracted from model output by the
Text-Action Parser — a terminal answer, a tool dispatch, or a parse
failure (the agent executor sources are not in this tree; only their tests
are). -/
inductive AgentDecision where
  | finish (output : String)
  | act (tool_name : String) (tool_input : String)
  | parseFailure
deriving DecidableEq

/-- Splits a character stream into newline-separated lines. -/
def splitLinesAux : List Char → List Char → List (List Char)
  | [], acc => [acc.reverse]
  | ch :: cs, acc =>
    if ch = '\n' then acc.reverse :: splitLinesAux cs []
    else splitLinesAux cs (ch :: acc)

/-- Drops `p` from the front of `cs` when `p` begins it. -/
def dropLead : List Char → List Char → Option (List Char)
  | [], cs => some cs
  | _ :: _, [] => none
  | p :: ps, ch :: cs => if p = ch then dropLead ps cs else none

/-- Modelled from the spec: the Text-Action Parser scans for a line
`Action: name` directly followed by a line `Action Input: input`; the
reserved name `Final Answer` yields a terminal answer, any other name a tool
dispatch, and the absence of the pattern a `ParseError`. -/
def findDecision : List (List Char) → AgentDecision
  | a :: b :: rest =>
    match dropLead "Action: ".data a, dropLead "Action Input: ".data b with
    | some nm, some inp =>
      if String.mk nm = "Final Answer" then AgentDecision.finish (String.mk inp)
      else AgentDecision.act (String.mk nm) (String.mk inp)
    | _, _ => findDecision (b :: rest)
  | _ => AgentDecision.parseFailure

/-- Modelled from the spec: Text-Action Parser entry point over the raw
model output text. -/
def parseDecision (text : String) : AgentDecision :=
  findDecision (splitLinesAux text.data [])

/-- Modelled from the spec: the CallbackEvent variants the claims count. -/
inductive AgentEvent where
  | chainStart
  | chainEnd
  | llmStart
  | llmEnd
  | toolStart
  | toolEnd
  | text
deriving DecidableEq

/-- Modelled from the spec: a registry entry, a named opaque string-to-string
callable. -/
def SpecTool : Type := String × (String → String)

/-- Modelled from the spec: exact, case-sensitive name lookup in the ordered
tool registry. -/
def lookupTool : List SpecTool → String → Option (String → String)
  | [], _ => none
  | t :: ts, n => if t.1 = n then some t.2 else lookupTool ts n

/-- Modelled from the spec: the outcome of one executor run — the result
string, the emitted event trace, and the final scratchpad. -/
structure AgentRunResult where
  output : String
  events : List AgentEvent
  scratchpad : List (String × String)
deriving DecidableEq

/-- Modelled from the spec: the stopping condition checked before each
iteration — `max_iterations` is set and the iteration counter has reached
it (time limits are outside this model). -/
def stopNow (max_iterations : Option Nat) (iterations : Nat) : Bool :=
  match max_iterations with
  | some m => iterations ≥ m
  | none => false

/-- Modelled from the spec: the Agent Executor loop.  The model collaborator
is the list of its successive outputs, one consumed per policy decision
(`none` models running out of scripted responses).  Before each iteration the
stopping condition is checked, yielding the StoppedEarly result; otherwise
one policy decision is made (an LLMStart/LLMEnd pair when verbose), and the
decision is dispatched: a finish ends the run, a known tool is invoked (a
ToolStart/ToolEnd pair when verbose) and the pair appended to the
scratchpad, an unknown tool becomes a non-fatal observation, a parse
failure becomes a corrective observation; a Text event accompanies each
scratchpad append when verbose. -/
def agentLoop (tools : List SpecTool) (verbose : Bool)
    (max_iterations : Option Nat) :
    List String → Nat → List (String × String) → Option AgentRunResult
  | [], iterations, scratchpad =>
    if stopNow max_iterations iterations then
      some ⟨"Agent stopped due to max iterations.", [], scratchpad⟩
    else
      none
  | r :: rest, iterations, scratchpad =>
    if stopNow max_iterations iterations then
      some ⟨"Agent stopped due to max iterations.", [], scratchpad⟩
    else
      let evLLM := if verbose then [AgentEvent.llmStart, AgentEvent.llmEnd] else []
      let evText := if verbose then [AgentEvent.text] else []
      match parseDecision r with
      | AgentDecision.finish out => some ⟨out, evLLM, scratchpad⟩
      | AgentDecision.act nm inp =>
        match lookupTool tools nm with
        | some f =>
          let evTool := if verbose then [AgentEvent.toolStart, AgentEvent.toolEnd] else []
          (agentLoop tools verbose max_iterations rest (iterations + 1)
              (scratchpad ++ [(r, f inp)])).map
            fun res => ⟨res.output, evLLM ++ evTool ++ evText ++ res.events, res.scratchpad⟩
        | none =>
          let obs := nm ++ " is not a valid tool, try another one."
          (agentLoop tools verbose max_iterations rest (iterations + 1)
              (scratchpad ++ [(r, obs)])).map
            fun res => ⟨res.output, evLLM ++ evText ++ res.events, res.scratchpad⟩
      | AgentDecision.parseFailure =>
        let obs := "Invalid decision format, follow the expected format."
        (agentLoop tools verbose max_iterations rest (iterations + 1)
            (scratchpad ++ [(r, obs)])).map
          fun res => ⟨res.output, evLLM ++ evText ++ res.events, res.scratchpad⟩

/-- Modelled from the spec: a full Executor `run` — the loop from a fresh
per-run state, wrapped in the top-level ChainStart/ChainEnd pair when
verbose. -/
def agentRun (tools : List SpecTool) (verbose : Bool)
    (max_iterations : Option Nat) (responses : List String) :
    Option AgentRunResult :=
  (agentLoop tools verbose max_iterations responses 0 []).map fun res =>
    if verbose then
      ⟨res.output, AgentEvent.chainStart :: res.events ++ [AgentEvent.chainEnd],
        res.scratchpad⟩
    else
      res

/-- Modelled from the spec: verbosity resolution — an explicit per-instance
flag overrides the process-wide default. -/
def resolveVerbose (localFlag : Option Bool) (globalFlag : Bool) : Bool :=
  localFlag.getD globalFlag

/-- Counts of the ChainStart, ChainEnd, LLMStart, LLMEnd, ToolStart and
ToolEnd events of a run, in that order. -/
def eventCounts (r : Option AgentRunResult) :
    Option (Nat × Nat × Nat × Nat × Nat × Nat) :=
  r.map fun res =>
    (res.events.count AgentEvent.chainStart, res.events.count AgentEvent.chainEnd,
     res.events.count AgentEvent.llmStart, res.events.count AgentEvent.llmEnd,
     res.events.count AgentEvent.toolStart, res.events.count AgentEvent.toolEnd)

lemma validateLoop_ok_iff (cs : List SubChain) (known K : Finset String) :
    validateLoop cs known = Except.ok K ↔
      FlowValid cs known ∧ K = known ∪ outputUnion cs := by
  induction cs generalizing known with
  | nil =>
    simp [validateLoop, FlowValid, outputUnion, eq_comm]
  | cons c cs ih =>
    simp only [validateLoop, FlowValid, outputUnion]
    by_cases h1 : c.input_keys.toFinset \ known = ∅
    · by_cases h2 : known ∩ c.output_keys.toFinset = ∅
      · simp only [h1, h2, ne_eq, not_true_eq_false, if_false, ite_false,
          not_false_eq_true, ite_true]
        rw [ih]
        have hin : ∀ k ∈ c.input_keys, k ∈ known := by
          intro k hk
          have := Finset.sdiff_eq_empty_iff_subset.mp h1
          exact this (List.mem_toFinset.mpr hk)
        have hout : ∀ k ∈ c.output_keys, k ∉ known := by
          intro k hk hkn
          have : k ∈ known ∩ c.output_keys.toFinset :=
            Finset.mem_inter.mpr ⟨hkn, List.mem_toFinset.mpr hk⟩
          simp [h2] at this
        constructor
        · rintro ⟨hflow, hK⟩
          refine ⟨⟨hin, hout, hflow⟩, ?_⟩
          rw [hK, Finset.union_assoc]
        · rintro ⟨⟨_, _, hflow⟩, hK⟩
          refine ⟨hflow, ?_⟩
          rw [hK, Finset.union_assoc]
      · simp only [h1, h2, ne_eq, not_true_eq_false, if_false,
          not_false_eq_true, ite_true, ite_false]
        constructor
        · intro h
          simp at h
        · rintro ⟨⟨_, hout, _⟩, _⟩
          exfalso
          apply h2
          apply Finset.eq_empty_of_forall_not_mem
          intro k hk
          rcases Finset.mem_inter.mp hk with ⟨hkn, hko⟩
          exact hout k (List.mem_toFinset.mp hko) hkn
    · simp only [h1, ne_eq, not_false_eq_true, ite_true, ite_false]
      constructor
      · intro h
        simp at h
      · rintro ⟨⟨hin, _, _⟩, _⟩
        exfalso
        apply h1
        apply Finset.sdiff_eq_empty_iff_subset.mpr
        intro k hk
        exact hin k (List.mem_toFinset.mp hk)

lemma Dict.get_restrict (d : Dict) (keys : List String) (k : String) :
    (d.restrict keys).get? k = if k ∈ keys then d.get? k else none := by
  induction keys with
  | nil => simp [Dict.restrict, Dict.get?]
  | cons k0 ks ih =>
    simp only [Dict.restrict, List.filterMap_cons]
    cases h0 : d.get? k0 with
    | none =>
      simp only [Option.map_none']
      simp only [Dict.restrict] at ih
      rw [ih]
      by_cases hk : k = k0
      · subst hk
        simp [h0]
      · simp [List.mem_cons, hk]
    | some v =>
      simp only [Option.map_some']
      by_cases hk : k0 = k
      · subst hk
        simp [Dict.get?, h0]
      · simp only [Dict.get?, hk, if_false, ite_false]
        simp only [Dict.restrict] at ih
        rw [ih]
        by_cases hks : k ∈ ks
        · simp [hks]
        · have hk2 : ¬k = k0 := fun h => hk h.symm
          simp [hks, hk2]

lemma envAfter_nil (inputs : Dict) : envAfter [] inputs = inputs := rfl

lemma envAfter_concat (chains : List SubChain) (c : SubChain) (inputs : Dict) :
    envAfter (chains ++ [c]) inputs =
      (envAfter chains inputs).update (c.call (envAfter chains inputs)) := by
  simp [envAfter, List.foldl_append]

/-- C1: construction of the variable-flow sequential chain validates the
sub-chains in order — it succeeds exactly when every sub-chain's input keys
are already known (starting from the declared inputs), none of its output
keys is already known, and any explicitly declared output variables are a
subset of the final known set; in every successful case the known set after
the loop equals the declared inputs united with the union of all sub-chain
output keys. -/
theorem seq_validate_known_variables (chains : List SubChain)
    (inputs ov : List String) (return_all : Bool) :
    (∀ K, validateLoop chains inputs.toFinset = Except.ok K ↔
        FlowValid chains inputs.toFinset ∧
          K = inputs.toFinset ∪ outputUnion chains) ∧
    ((∃ R, validate_chains chains inputs (some ov) return_all = Except.ok R) ↔
        FlowValid chains inputs.toFinset ∧
          ov.toFinset ⊆ inputs.toFinset ∪ outputUnion chains) := by
  refine ⟨fun K => validateLoop_ok_iff chains inputs.toFinset K, ?_⟩
  unfold validate_chains
  cases hv : validateLoop chains inputs.toFinset with
  | error e =>
    simp only [reduceCtorEq, exists_false, false_iff, not_and]
    intro hflow hsub
    have : validateLoop chains inputs.toFinset =
        Except.ok (inputs.toFinset ∪ outputUnion chains) :=
      (validateLoop_ok_iff chains inputs.toFinset _).mpr ⟨hflow, rfl⟩
    rw [hv] at this
    cases this
  | ok known =>
    obtain ⟨hflow, hK⟩ := (validateLoop_ok_iff chains inputs.toFinset known).mp hv
    subst hK
    by_cases hsub : ov.toFinset \ (inputs.toFinset ∪ outputUnion chains) = ∅
    · simp only [hsub, ne_eq, not_true_eq_false, if_false, ite_false,
        Except.ok.injEq, exists_eq']
      exact iff_of_true trivial
        ⟨hflow, Finset.sdiff_eq_empty_iff_subset.mp hsub⟩
    · simp only [hsub, ne_eq, not_false_eq_true, ite_true, reduceCtorEq,
        exists_false, false_iff, not_and]
      intro _ h
      exact hsub (Finset.sdiff_eq_empty_iff_subset.mpr h)

/-- C2: at call time the variable-flow sequential chain threads the
environment through the sub-chains strictly in list order — the environment
after running `cs ++ [c]` is the environment after `cs` with `c`'s outputs
(computed from that full accumulated environment) merged in — starting from
the given inputs, and the call returns exactly the final environment
restricted to the declared output variables. -/
theorem seq_call_in_order (chains : List SubChain) (output_variables : List String)
    (inputs : Dict) :
    (∀ k, (SequentialChain.call chains output_variables inputs).get? k =
        if k ∈ output_variables then (envAfter chains inputs).get? k else none) ∧
    envAfter [] inputs = inputs ∧
    (∀ cs c, envAfter (cs ++ [c]) inputs =
        (envAfter cs inputs).update (c.call (envAfter cs inputs))) :=
  ⟨fun k => Dict.get_restrict (envAfter chains inputs) output_variables k,
    envAfter_nil inputs, fun cs c => envAfter_concat cs c inputs⟩

/-- C3: a single-I/O sequential chain over `f, g, h` computes the exact
composition `h(g(f(x)))` when `strip_outputs` is off, and trims whitespace
after each stage (the last included) when it is on. -/
theorem simple_seq_composition (f g h : SimpleChain) (x : String) :
    SimpleSequentialChain.run [f, g, h] false x = some (h.run (g.run (f.run x))) ∧
    SimpleSequentialChain.run [f, g, h] true x =
      some ((h.run ((g.run ((f.run x).trim)).trim)).trim) := by
  constructor <;> rfl

/-- C4: construction of the single-I/O sequential chain succeeds exactly
when every sub-chain has exactly one input key and exactly one output key,
and fails with a ValidationError otherwise. -/
theorem simple_seq_validate_iff (chains : List SimpleChain) :
    (∃ u, SimpleSequentialChain.validate_chains chains = Except.ok u) ↔
      ∀ c ∈ chains, c.input_keys.length = 1 ∧ c.output_keys.length = 1 := by
  induction chains with
  | nil => simp [SimpleSequentialChain.validate_chains]
  | cons c cs ih =>
    simp only [SimpleSequentialChain.validate_chains]
    by_cases h1 : c.input_keys.length = 1
    · by_cases h2 : c.output_keys.length = 1
      · simp [h1, h2, ih]
      · simp [h1, h2]
    · simp [h1]

/-- C8: when output variables are not explicitly declared, the validator
defaults them to the final known set minus the declared inputs under the
return-all flag, and to the final sub-chain's output keys otherwise. -/
theorem seq_default_output_variables (chains : List SubChain)
    (inputs : List String) (return_all : Bool) (K : Finset String)
    (c : SubChain)
    (hv : validateLoop chains inputs.toFinset = Except.ok K)
    (hlast : chains.getLast? = some c) :
    validate_chains chains inputs none return_all =
      Except.ok (if return_all then K \ inputs.toFinset
        else c.output_keys.toFinset) := by
  unfold validate_chains
  rw [hv]
  cases return_all <;> simp [hlast]

/-- Witness for C8 at a one-chain configuration: input `a`, output `b`. -/
theorem seq_default_output_variables_witness :
    validate_chains [⟨["a"], ["b"], fun _ => []⟩] ["a"] none true =
      Except.ok ((({"a", "b"} : Finset String)) \ (["a"] : List String).toFinset) := by
  have h := seq_default_output_variables [⟨["a"], ["b"], fun _ => []⟩] ["a"] true
    ({"a", "b"} : Finset String) ⟨["a"], ["b"], fun _ => []⟩ (by rfl) rfl
  simpa using h

/-- C5: with `max_iterations = 0` the executor run yields the StoppedEarly
result string without any policy or tool invocation — zero LLMStart and
zero ToolStart events, whatever the tools, verbosity and scripted model
outputs. -/
theorem agent_max_iterations_zero (tools : List SpecTool) (verbose : Bool)
    (responses : List String) :
    ∃ res, agentRun tools verbose (some 0) responses = some res ∧
      res.output = "Agent stopped due to max iterations." ∧
      res.events.count AgentEvent.llmStart = 0 ∧
      res.events.count AgentEvent.toolStart = 0 := by
  cases responses with
  | nil => cases verbose <;> exact ⟨_, rfl, rfl, rfl, rfl⟩
  | cons r rest => cases verbose <;> exact ⟨_, rfl, rfl, rfl, rfl⟩

/-- C6: on the test scenario — input irrelevant to the scripted model, tools
Search and Lookup, model outputs naming the unknown tool BadAction and then
the final answer — the executor records the unknown-tool dispatch as a
non-fatal observation on the scratchpad, keeps looping, and terminates with
exactly the answer `curses foiled again` after exactly two policy
decisions. -/
theorem agent_bad_action_run :
    ∃ res,
      agentRun [("Search", id), ("Lookup", id)] true none
        ["I'm turning evil\nAction: BadAction\nAction Input: misalignment",
         "Oh well\nAction: Final Answer\nAction Input: curses foiled again"] =
        some res ∧
      res.output = "curses foiled again" ∧
      res.events.count AgentEvent.llmStart = 2 ∧
      res.scratchpad =
        [("I'm turning evil\nAction: BadAction\nAction Input: misalignment",
          "BadAction is not a valid tool, try another one.")] := by
  refine ⟨_, rfl, ?_, ?_, ?_⟩ <;> decide

/-- C7: any two-decision run — one dispatch to a registered tool followed by
one final answer — emits exactly one top-level ChainStart/ChainEnd pair, two
LLM start/end pairs and one tool start/end pair when the resolved verbosity
(local per-instance flag overriding the global one) is on, and zero of each
when it is off. -/
theorem agent_two_decision_event_counts (r1 r2 nm inp out : String)
    (tools : List SpecTool) (f : String → String)
    (localFlag : Option Bool) (globalFlag : Bool)
    (h1 : parseDecision r1 = AgentDecision.act nm inp)
    (h2 : lookupTool tools nm = some f)
    (h3 : parseDecision r2 = AgentDecision.finish out) :
    eventCounts (agentRun tools (resolveVerbose localFlag globalFlag) none [r1, r2]) =
      some (if resolveVerbose localFlag globalFlag then (1, 1, 2, 2, 1, 1)
        else (0, 0, 0, 0, 0, 0)) := by
  cases hr : resolveVerbose localFlag globalFlag <;>
    simp [agentRun, agentLoop, stopNow, eventCounts, h1, h2, h3, List.count_cons]

/-- Witness for C7 on the test scenario: scripted Search dispatch then a
final answer, once with verbosity resolved on from the global flag and once
resolved off by the local override. -/
theorem agent_two_decision_event_counts_witness :
    parseDecision "FooBarBaz\nAction: Search\nAction Input: misalignment" =
      AgentDecision.act "Search" "misalignment" ∧
    eventCounts (agentRun [("Search", id)] (resolveVerbose none true) none
        ["FooBarBaz\nAction: Search\nAction Input: misalignment",
         "Oh well\nAction: Final Answer\nAction Input: curses foiled again"]) =
      some (1, 1, 2, 2, 1, 1) ∧
    eventCounts (agentRun [("Search", id)] (resolveVerbose (some false) true) none
        ["FooBarBaz\nAction: Search\nAction Input: misalignment",
         "Oh well\nAction: Final Answer\nAction Input: curses foiled again"]) =
      some (0, 0, 0, 0, 0, 0) := by
  refine ⟨by decide, ?_, ?_⟩
  · have h := agent_two_decision_event_counts
      "FooBarBaz\nAction: Search\nAction Input: misalignment"
      "Oh well\nAction: Final Answer\nAction Input: curses foiled again"
      "Search" "misalignment" "curses foiled again" [("Search", id)] id none true
      (by decide) (by rfl) (by decide)
    simpa using h
  · have h := agent_two_decision_event_counts
      "FooBarBaz\nAction: Search\nAction Input: misalignment"
      "Oh well\nAction: Final Answer\nAction Input: curses foiled again"
      "Search" "misalignment" "curses foiled again" [("Search", id)] id
      (some false) true (by decide) (by rfl) (by decide)
    simpa using h

lemma ctxRun_eq_specRun (fmt : String → Dict → String)
    (hfmt : ∀ p t v, fmt (p ++ t) v = p ++ fmt t v) (chains : List CtxChain) :
    ∀ (known : Dict) (ctx : String),
      ((ctxRun fmt chains known ctx).context, (ctxRun fmt chains known ctx).env,
        (ctxRun fmt chains known ctx).trace) = specRun fmt chains known ctx := by
  induction chains with
  | nil => intro known ctx; rfl
  | cons c cs ih =>
    intro known ctx
    simp only [ctxRun, specRun]
    rw [hfmt, String.append_assoc, ← ih]

lemma ctxRun_trace_chain (fmt : String → Dict → String) :
    ∀ (chains : List CtxChain) (known : Dict) (ctx : String),
      List.Chain' ctxGrowth (ctxRun fmt chains known ctx).trace
  | [], _, _ => List.chain'_nil
  | [_], _, _ => List.chain'_singleton _
  | _ :: c2 :: cs, _, _ =>
    List.chain'_cons.mpr ⟨rfl, ctxRun_trace_chain fmt (c2 :: cs) _ _⟩

lemma ctxRun_templates_mutated (fmt : String → Dict → String) :
    ∀ (chains : List CtxChain) (known : Dict) (ctx : String),
      (ctxRun fmt chains known ctx).chains.map CtxChain.template =
        (ctxRun fmt chains known ctx).trace.map CtxStep.effectiveTemplate
  | [], _, _ => rfl
  | c :: cs, _, ctx =>
    congrArg (List.cons (ctx ++ c.template))
      (ctxRun_templates_mutated fmt cs _ _)

lemma getLast?_cons_of_ne {α : Type} (a : α) (l : List α) (h : l ≠ []) :
    (a :: l).getLast? = l.getLast? := by
  cases l with
  | nil => exact absurd rfl h
  | cons b t => exact List.getLast?_cons_cons

lemma lastPromptResponse_cons (st : CtxStep) (l : List CtxStep) (h : l ≠ []) :
    lastPromptResponse (st :: l) = lastPromptResponse l := by
  unfold lastPromptResponse
  rw [getLast?_cons_of_ne st l h]

lemma ctxRun_context_last (fmt : String → Dict → String) :
    ∀ (chains : List CtxChain) (known : Dict) (ctx : String), chains ≠ [] →
      lastPromptResponse (ctxRun fmt chains known ctx).trace =
        some (ctxRun fmt chains known ctx).context
  | [], _, _, hne => absurd rfl hne
  | [_], _, _, _ => rfl
  | _ :: c2 :: cs, _, _, _ =>
    (lastPromptResponse_cons _ _ (List.cons_ne_nil _ _)).trans
      (ctxRun_context_last fmt (c2 :: cs) _ _ (List.cons_ne_nil _ _))

lemma String.eq_empty_of_length_zero {a : String} (h : a.length = 0) : a = "" := by
  cases a with
  | mk data =>
    cases data with
    | nil => rfl
    | cons ch cs => simp [String.length] at h

/-- C9: under the interface assumption that rendering reproduces a literal
prefix verbatim, the context-accumulating variant is the accumulator-style
composition of the spec — each step's effective template is the running
context (the concatenation of every prior step's rendered prompt and
response) prepended to that step's base template — and consecutive trace
steps always satisfy the growth relation: the later effective template is
the earlier full rendered prompt and response followed by the later base
template. -/
theorem ctx_accumulates_previous_context (fmt : String → Dict → String)
    (hfmt : ∀ p t v, fmt (p ++ t) v = p ++ fmt t v)
    (chains : List CtxChain) (known : Dict) (ctx : String) :
    ((ctxRun fmt chains known ctx).context, (ctxRun fmt chains known ctx).env,
        (ctxRun fmt chains known ctx).trace) = specRun fmt chains known ctx ∧
      List.Chain' ctxGrowth (ctxRun fmt chains known ctx).trace :=
  ⟨ctxRun_eq_specRun fmt hfmt chains known ctx,
    ctxRun_trace_chain fmt chains known ctx⟩

/-- Witness for C9 at a verbatim rendering collaborator and two concrete
sub-chains. -/
theorem ctx_accumulates_previous_context_witness :
    ((ctxRun fmtKeep [demoCtxChain, demoCtxChain2] demoDict "").context,
        (ctxRun fmtKeep [demoCtxChain, demoCtxChain2] demoDict "").env,
        (ctxRun fmtKeep [demoCtxChain, demoCtxChain2] demoDict "").trace) =
      specRun fmtKeep [demoCtxChain, demoCtxChain2] demoDict "" ∧
      List.Chain' ctxGrowth
        (ctxRun fmtKeep [demoCtxChain, demoCtxChain2] demoDict "").trace :=
  ctx_accumulates_previous_context fmtKeep (fun _ _ _ => rfl)
    [demoCtxChain, demoCtxChain2] demoDict ""

/-- C10: a call of the context-accumulating variant mutates persistent
state — every returned sub-chain's template equals the effective template of
its step (the original template with the then-current context prepended),
and the composer's context field retains the last step's rendered prompt and
response — so a second call on the returned state starts its first step from
the retained context prepended to the already-rewritten template, which
differs from the original first template whenever the retained context is
non-empty: calls are not independent. -/
theorem ctx_call_not_repeat_safe (fmt : String → Dict → String) (c : CtxChain)
    (cs : List CtxChain) (known known2 : Dict) (ctx : String)
    (hctx : (ctxRun fmt (c :: cs) known ctx).context ≠ "") :
    (ctxRun fmt (c :: cs) known ctx).chains.map CtxChain.template =
        (ctxRun fmt (c :: cs) known ctx).trace.map CtxStep.effectiveTemplate ∧
    lastPromptResponse (ctxRun fmt (c :: cs) known ctx).trace =
        some (ctxRun fmt (c :: cs) known ctx).context ∧
    headEffectiveTemplate
        (ctxRun fmt (ctxRun fmt (c :: cs) known ctx).chains known2
          (ctxRun fmt (c :: cs) known ctx).context) =
      some ((ctxRun fmt (c :: cs) known ctx).context ++ (ctx ++ c.template)) ∧
    (ctxRun fmt (c :: cs) known ctx).context ++ (ctx ++ c.template) ≠
      c.template := by
  refine ⟨ctxRun_templates_mutated fmt (c :: cs) known ctx,
    ctxRun_context_last fmt (c :: cs) known ctx (List.cons_ne_nil c cs),
    rfl, ?_⟩
  intro hEq
  apply hctx
  have hlen := congrArg String.length hEq
  rw [String.length_append, String.length_append] at hlen
  apply String.eq_empty_of_length_zero
  omega

/-- Witness for C10 at a verbatim rendering collaborator and a concrete
sub-chain whose run produces a non-empty context. -/
theorem ctx_call_not_repeat_safe_witness :
    (ctxRun fmtKeep [demoCtxChain] demoDict "").chains.map CtxChain.template =
        (ctxRun fmtKeep [demoCtxChain] demoDict "").trace.map
          CtxStep.effectiveTemplate ∧
    lastPromptResponse (ctxRun fmtKeep [demoCtxChain] demoDict "").trace =
        some (ctxRun fmtKeep [demoCtxChain] demoDict "").context ∧
    headEffectiveTemplate
        (ctxRun fmtKeep (ctxRun fmtKeep [demoCtxChain] demoDict "").chains demoDict
          (ctxRun fmtKeep [demoCtxChain] demoDict "").context) =
      some ((ctxRun fmtKeep [demoCtxChain] demoDict "").context ++
        ("" ++ demoCtxChain.template)) ∧
    (ctxRun fmtKeep [demoCtxChain] demoDict "").context ++
        ("" ++ demoCtxChain.template) ≠ demoCtxChain.template :=
  ctx_call_not_repeat_safe fmtKeep demoCtxChain [] demoDict demoDict ""
    (by decide)

end LangchainVerif
